import Mathlib

/-!
Verification development for the garmin-connect-export repository.

Shallow embedding of the modules the specification claims talk about:
  * `src/filtering.py` : `read_exclude`, `update_download_stats`
  * `src/gcexport.py`  : `load_properties`, class `CsvFilter`
    (`set_column`, `write_row`), `fetch_details`, `MAX_TRIES`

File contents are modelled at the level of their JSON parse result
(`Option JValue`, `none` meaning the bytes are not valid JSON), JSON
numbers are modelled as integers, and the Python runtime behaviour the
code relies on (truthiness, `dict(...)` conversion, `in`, `list.sort`,
`dict` insertion order) is embedded explicitly below.  All definitions
are executable so that concrete runs evaluate by `rfl` or `decide`.
-/

namespace GarminExport

/-- A parsed JSON value.  Numbers are modelled as integers (all values the
claims exercise are integral); object fields are kept in document order. -/
inductive JValue where
  | jnull
  | jbool (b : Bool)
  | jnum (n : Int)
  | jstr (s : String)
  | jarr (elems : List JValue)
  | jobj (fields : List (String × JValue))

/-- The Python exceptions the embedded code can raise. -/
inductive PyErr where
  | typeError
  | valueError
  | keyError
  | attributeError
  | garminError
deriving DecidableEq

/-- A hashable Python value usable as a `dict` key (strings, ints, bools,
`None`); arrays and objects are unhashable and never become keys. -/
inductive PyKey where
  | kstr (s : String)
  | knum (n : Int)
  | kbool (b : Bool)
  | knull
deriving DecidableEq

/-- Python `==` on dict keys: `True == 1` and `False == 0`. -/
def pyKeyEq : PyKey → PyKey → Bool
  | .kstr a, .kstr b => a = b
  | .knum a, .knum b => a = b
  | .kbool a, .kbool b => a = b
  | .knum a, .kbool b => a = (if b then (1 : Int) else 0)
  | .kbool a, .knum b => (if a then (1 : Int) else 0) = b
  | .knull, .knull => true
  | _, _ => false

/-- A Python `dict` with JSON values: association list in insertion order,
keys unique up to `pyKeyEq`. -/
abbrev PyDict := List (PyKey × JValue)

def dictContains (d : PyDict) (k : PyKey) : Bool :=
  d.any (fun e => pyKeyEq e.1 k)

/-- Lookup in a `dict` (keys are unique, so first match). -/
def dictGet (d : PyDict) (k : PyKey) : Option JValue :=
  match d with
  | [] => none
  | e :: rest => if pyKeyEq e.1 k then some e.2 else dictGet rest k

/-- `d[k] = v`: replace in place if the key is present (Python keeps the
original key object and its position), else append. -/
def dictInsert (d : PyDict) (k : PyKey) (v : JValue) : PyDict :=
  match d with
  | [] => [(k, v)]
  | e :: rest =>
      if pyKeyEq e.1 k then (e.1, v) :: rest else e :: dictInsert rest k v

/-- String-keyed association insert with in-place replacement, mirroring
Python `dict` insertion order (used for JSON objects and property files). -/
def assocInsert {α : Type} (l : List (String × α)) (k : String) (v : α) :
    List (String × α) :=
  match l with
  | [] => [(k, v)]
  | e :: rest =>
      if e.1 = k then (e.1, v) :: rest else e :: assocInsert rest k v

/-- Lookup by key, first match (for dicts whose keys are unique). -/
def assocGet {α : Type} (l : List (String × α)) (k : String) : Option α :=
  match l with
  | [] => none
  | e :: rest => if e.1 = k then some e.2 else assocGet rest k

/-- Lookup by key, last match: `json.loads` lets a later duplicate key win,
so subscripting a freshly parsed object sees the last occurrence. -/
def assocGetLast {α : Type} (l : List (String × α)) (k : String) : Option α :=
  match l with
  | [] => none
  | e :: rest =>
      match assocGetLast rest k with
      | some v => some v
      | none => if e.1 = k then some e.2 else none

/-- Python truthiness of a JSON value (`if details[...]:`). -/
def jTruthy : JValue → Bool
  | .jnull => false
  | .jbool b => b
  | .jnum n => n ≠ 0
  | .jstr s => s ≠ ""
  | .jarr elems => ¬ elems.isEmpty
  | .jobj fields => ¬ fields.isEmpty

/-- Convert one element of an iterable into a key/value pair, as Python
`dict(iterable)` does: the element must be a sequence of length two whose
first component is hashable.  A two-character JSON string yields its two
characters; a two-element array yields its components; iterating a
two-field object yields its two keys.  Anything else raises `TypeError`
(not iterable / unhashable key) or `ValueError` (wrong length). -/
def pairOfElem : JValue → Except PyErr (PyKey × JValue)
  | .jstr s =>
      match s.data with
      | [a, b] => .ok (.kstr (String.mk [a]), .jstr (String.mk [b]))
      | _ => .error .valueError
  | .jarr [a, b] =>
      match a with
      | .jstr s => .ok (.kstr s, b)
      | .jnum n => .ok (.knum n, b)
      | .jbool c => .ok (.kbool c, b)
      | .jnull => .ok (.knull, b)
      | .jarr _ => .error .typeError
      | .jobj _ => .error .typeError
  | .jarr _ => .error .valueError
  | .jobj fields =>
      match fields.map Prod.fst with
      | [k0, k1] => .ok (.kstr k0, .jstr k1)
      | _ => .error .valueError
  | .jnull => .error .typeError
  | .jbool _ => .error .typeError
  | .jnum _ => .error .typeError

/-- Python `dict(x)` applied to a parsed JSON value (`obj = dict(obj)` in
`update_download_stats`): an object copies; an empty string gives the empty
dict and any other string fails with `ValueError` (its elements are
one-character strings); an array is consumed elementwise via `pairOfElem`;
numbers, booleans and `null` are not iterable, `TypeError`. -/
def pyDictOf : JValue → Except PyErr PyDict
  | .jobj fields => .ok (fields.map (fun e => (PyKey.kstr e.1, e.2)))
  | .jstr s => if s = "" then .ok [] else .error .valueError
  | .jarr elems =>
      elems.foldlM (fun d e => (pairOfElem e).map (fun p => dictInsert d p.1 p.2)) []
  | .jnull => .error .typeError
  | .jbool _ => .error .typeError
  | .jnum _ => .error .typeError

/-- Is `needle.data` a contiguous sublist of `l` starting at its front? -/
def chListLeads : List Char → List Char → Bool
  | [], _ => true
  | _ :: _, [] => false
  | a :: as, b :: bs => a = b && chListLeads as bs

/-- Python `needle in hay` on strings: substring containment. -/
def strHasSub (hay needle : String) : Bool :=
  (List.range (hay.data.length + 1)).any
    (fun i => chListLeads needle.data (hay.data.drop i))

/-- Python `activity_id in obj[KEY_IDS]`: membership in a list compares
with `==` (a string only ever equals a string); `in` on a string is a
substring test; `in` on a dict tests its keys; `in` on a number, boolean
or `null` raises `TypeError`. -/
def pyIn (id : String) : JValue → Except PyErr Bool
  | .jarr elems =>
      .ok (elems.any (fun x => match x with | .jstr s => s = id | _ => false))
  | .jstr s => .ok (strHasSub s id)
  | .jobj fields => .ok (fields.any (fun e => e.1 = id))
  | .jnull => .error .typeError
  | .jbool _ => .error .typeError
  | .jnum _ => .error .typeError

/-- Lexicographic less-or-equal on character lists by code point,
written structurally so that concrete comparisons reduce in the kernel. -/
def chLex : List Char → List Char → Bool
  | [], _ => true
  | _ :: _, [] => false
  | a :: as, b :: bs => if a < b then true else if b < a then false else chLex as bs

/-- Python string comparison: code-point lexicographic order, which agrees
with the `String` order used by Mathlib. -/
def strLe (a b : String) : Bool := chLex a.data b.data

theorem chLex_iff (x y : List Char) :
    chLex x y = true ↔ ¬ List.Lex (· < ·) y x := by
  induction x generalizing y with
  | nil =>
    simp [chLex, List.Lex.not_nil_right]
  | cons a as ih =>
    cases y with
    | nil =>
      simp only [chLex, Bool.false_eq_true, false_iff, not_not]
      exact List.Lex.nil
    | cons b bs =>
      by_cases hab : a < b
      · simp only [chLex, hab, if_pos, true_iff]
        intro hlex
        cases hlex with
        | cons h => exact absurd hab (lt_irrefl _)
        | rel h => exact absurd hab (asymm h)
      · by_cases hba : b < a
        · simp only [chLex, hab, hba, if_neg, if_pos, not_false_eq_true,
            Bool.false_eq_true, false_iff, not_not]
          exact List.Lex.rel hba
        · have hEq : a = b := le_antisymm (le_of_not_lt hba) (le_of_not_lt hab)
          subst hEq
          simp only [chLex, lt_irrefl, if_neg, not_false_eq_true]
          rw [ih bs]
          constructor
          · intro h hlex
            cases hlex with
            | cons h2 => exact h h2
            | rel h2 => exact absurd h2 (lt_irrefl _)
          · intro h hlex
            exact h (List.Lex.cons hlex)

theorem strLe_iff (a b : String) : strLe a b = true ↔ a ≤ b := by
  rw [strLe, chLex_iff]
  have h1 : b < a ↔ List.Lex (· < ·) b.data a.data := by
    rw [String.lt_iff_toList_lt]
    exact Iff.rfl
  rw [not_congr h1.symm, not_lt]

/-- Kernel-reducible decidability of `String` less-or-equal, preferred
over the iterator-based core test so that concrete sorts evaluate. -/
instance (priority := 2000) decStrLe : DecidableRel (fun a b : String => a ≤ b) :=
  fun a b => decidable_of_iff (strLe a b = true) (strLe_iff a b)

/-- Ascending lexicographic sort of strings, the effect of Python
`list.sort()` on a list of strings (code-point order in both languages;
equal strings are identical, so stability does not affect the result). -/
def sortIds (l : List String) : List String :=
  List.insertionSort (fun a b => a ≤ b) l

/-- Extract the underlying strings when every element is a JSON string;
`none` when some element is not a string, in which case Python
`list.sort()` after appending our string raises `TypeError`. -/
def allStrings : List JValue → Option (List String)
  | [] => some []
  | .jstr s :: rest => (allStrings rest).map (fun l => s :: l)
  | _ :: _ => none

/-- `obj[KEY_IDS].append(activity_id)` followed by `obj[KEY_IDS].sort()`:
appending to a list works and the sort succeeds exactly when all previous
elements are strings; `append` on a string or dict raises
`AttributeError`; other shapes already failed the earlier `in` test. -/
def appendAndSort (idsV : JValue) (activity_id : String) :
    Except PyErr (List String) :=
  match idsV with
  | .jarr elems =>
      match allStrings elems with
      | some ss => .ok (sortIds (ss ++ [activity_id]))
      | none => .error .typeError
  | .jstr _ => .error .attributeError
  | .jobj _ => .error .attributeError
  | .jnull => .error .typeError
  | .jbool _ => .error .typeError
  | .jnum _ => .error .typeError

/-- `json.dumps` of a dict followed by the next run reading it back:
non-string keys are stringified (`1` to `"1"`, `True` to `"true"`,
`None` to `"null"`) and a duplicate stringified key is collapsed by the
reader, the later value winning in the position of the first. -/
def keyToString : PyKey → String
  | .kstr s => s
  | .knum n => toString n
  | .kbool b => if b then "true" else "false"
  | .knull => "null"

def dumpsRoundtrip (d : PyDict) : JValue :=
  .jobj (d.foldl (fun acc e => assocInsert acc (keyToString e.1) e.2) [])

/-- The state of the `downloaded_ids.json` ledger file: absent, or present
with the given JSON parse result (`none`: bytes that are not valid JSON). -/
inductive LedgerFile where
  | absent
  | stored (parsed : Option JValue)

def KEY_IDS : String := "ids"

/-- `filtering.update_download_stats(activity_id, directory)`: touch the
file with `json.dumps("")` when absent; parse, treating a decode error as
`""`; `obj = dict(obj)`; ensure the `"ids"` key; return untouched if the
ID is already present, else append, sort and rewrite the whole file.
An `.error` result is a raised Python exception, the file at that point
holding the pre-call bytes (the touch branch never raises afterwards). -/
def update_download_stats (activity_id : String) (st : LedgerFile) :
    Except PyErr LedgerFile :=
  let touched : Option JValue :=
    match st with
    | .absent => some (.jstr "")
    | .stored p => p
  let obj0 : JValue :=
    match touched with
    | some v => v
    | none => .jstr ""
  match pyDictOf obj0 with
  | .error e => .error e
  | .ok d0 =>
    let d := if dictContains d0 (.kstr KEY_IDS) then d0
             else dictInsert d0 (.kstr KEY_IDS) (.jarr [])
    match dictGet d (.kstr KEY_IDS) with
    | none => .error .keyError
    | some idsV =>
      match pyIn activity_id idsV with
      | .error e => .error e
      | .ok true => .ok (.stored touched)
      | .ok false =>
        match appendAndSort idsV activity_id with
        | .error e => .error e
        | .ok newIds =>
            .ok (.stored (some (dumpsRoundtrip
              (dictInsert d (.kstr KEY_IDS) (.jarr (newIds.map .jstr))))))

/-- The well-formed ledger file `{"ids": [...]}` with the given ID list. -/
def mkLedger (l : List String) : LedgerFile :=
  .stored (some (.jobj [(KEY_IDS, .jarr (l.map .jstr))]))

/-- Repeated calls of `update_download_stats` with one fixed ID. -/
def iterUpdate (id : String) : Nat → LedgerFile → Except PyErr LedgerFile
  | 0, st => .ok st
  | n + 1, st =>
      match update_download_stats id st with
      | .error e => .error e
      | .ok st2 => iterUpdate id n st2

/-- One `update_download_stats` call per ID, in list order. -/
def runUpdates (ids : List String) (st : LedgerFile) : Except PyErr LedgerFile :=
  match ids with
  | [] => .ok st
  | i :: rest =>
      match update_download_stats i st with
      | .error e => .error e
      | .ok st2 => runUpdates rest st2

/-- The filesystem state behind the path handed to `read_exclude`:
missing, present but not a regular file, or a regular file whose bytes
have the given JSON parse result (`none`: not valid JSON). -/
inductive ExcludePath where
  | missing
  | notFile
  | file (parsed : Option JValue)

/-- `filtering.read_exclude(file)`: `None` when the path does not exist,
is not a regular file, or the content raises `json.JSONDecodeError`;
otherwise `obj["ids"]`, which raises `TypeError` on a non-object value
and `KeyError` when the key is absent (neither is caught). -/
def read_exclude (p : ExcludePath) : Except PyErr (Option JValue) :=
  match p with
  | .missing => .ok none
  | .notFile => .ok none
  | .file none => .ok none
  | .file (some v) =>
      match v with
      | .jobj fields =>
          match assocGetLast fields "ids" with
          | some x => .ok (some x)
          | none => .error .keyError
      | _ => .error .typeError

def MAX_TRIES : Nat := 3

/-- `details["summaryDTO"]` on a parsed detail payload: `TypeError` on a
non-object payload, `KeyError` when the key is absent. -/
def summaryLookup (details : JValue) : Except PyErr JValue :=
  match details with
  | .jobj fields =>
      match assocGetLast fields "summaryDTO" with
      | some x => .ok x
      | none => .error .keyError
  | _ => .error .typeError

/-- The retry loop of `gcexport.fetch_details`, with `resp i` the parsed
JSON of the i-th HTTP call (0-based) and the second result component the
number of HTTP calls made.  `tries` is the loop counter of the source:
fetch, return the payload when `details["summaryDTO"]` is truthy, retry
while tries remain, raise `GarminException` when they run out; the
subscripting itself can raise `KeyError` or `TypeError`, which
propagates immediately. -/
def fetchLoop (resp : Nat → JValue) : Nat → Nat → Except (PyErr × Nat) (JValue × Nat)
  | 0, calls => .error (.garminError, calls)
  | tries + 1, calls =>
      let details := resp calls
      match summaryLookup details with
      | .error e => .error (e, calls + 1)
      | .ok s =>
          if jTruthy s then .ok (details, calls + 1)
          else if tries = 0 then .error (.garminError, calls + 1)
          else fetchLoop resp tries (calls + 1)

/-- `gcexport.fetch_details(activity_id, http_caller)` as a function of
the successive parsed responses. -/
def fetch_details (resp : Nat → JValue) : Except (PyErr × Nat) (JValue × Nat) :=
  fetchLoop resp MAX_TRIES 0

/-- Python `str.strip()` (with the whitespace classes the claims use). -/
def pyStrip (l : List Char) : List Char :=
  ((l.dropWhile Char.isWhitespace).reverse.dropWhile Char.isWhitespace).reverse

/-- Python `str.strip(chr)` for one character (used with the quote
character in `load_properties`). -/
def pyStripChar (c : Char) (l : List Char) : List Char :=
  ((l.dropWhile (fun a => a = c)).reverse.dropWhile (fun a => a = c)).reverse

/-- Split a character list at every occurrence of `c`, like Python
`str.split` with a one-character separator (never returns an empty list). -/
def splitOnChar (c : Char) : List Char → List (List Char)
  | [] => [[]]
  | a :: rest =>
      match splitOnChar c rest with
      | [] => [[a]]
      | h :: t => if a = c then [] :: h :: t else (a :: h) :: t

/-- `"=".join(parts)`: interleave the separator between the parts. -/
def joinWithChar (c : Char) : List (List Char) → List Char
  | [] => []
  | [x] => x
  | x :: y :: rest => x ++ c :: joinWithChar c (y :: rest)

/-- One line of `gcexport.load_properties`: strip; skip empty and
comment lines; split on the separator; the key is the stripped part
before the first separator, the value the re-joined rest, stripped and
then stripped of double quotes.  The key is appended to the key list
and inserted into the dict (a repeated key overwrites its dict entry). -/
def loadPropsLine (sep comment : Char) (state : List (String × String) × List String)
    (line : List Char) : List (String × String) × List String :=
  let stripped := pyStrip line
  if stripped ≠ [] ∧ ¬ (stripped.head? = some comment) then
    match splitOnChar sep stripped with
    | [] => state
    | k0 :: rest =>
        let key := String.mk (pyStrip k0)
        let value := String.mk (pyStripChar '"' (pyStrip (joinWithChar sep rest)))
        (assocInsert state.1 key value, state.2 ++ [key])
  else state

/-- `gcexport.load_properties(multiline, separator, comment_char, keys)`:
returns the property dict and the key list the source accumulates through
its `keys` parameter (one entry per accepted line, in file order). -/
def load_properties (multiline : String) : List (String × String) × List String :=
  (splitOnChar '\n' multiline.data).foldl (loadPropsLine '=' '#') ([], [])

/-- A Python value passed to `set_column` (the orchestrator passes
strings, numbers, and absent values). -/
inductive PyValue where
  | pstr (s : String)
  | pint (n : Int)
  | pnone
deriving DecidableEq

/-- Python truthiness of a `set_column` value: empty string, zero and
`None` are falsy. -/
def truthy : PyValue → Bool
  | .pstr s => s ≠ ""
  | .pint n => n ≠ 0
  | .pnone => false

/-- `str(value)` as the csv writer renders a stored cell. -/
def pyStrOf : PyValue → String
  | .pstr s => s
  | .pint n => toString n
  | .pnone => "None"

/-- Double every double-quote character, the csv quoting convention. -/
def csvEscape (l : List Char) : List Char :=
  l.foldr (fun c acc => if c = '"' then '"' :: '"' :: acc else c :: acc) []

/-- One fully quoted csv field (`csv.QUOTE_ALL`). -/
def csvQuote (s : String) : String :=
  String.mk ('"' :: csvEscape s.data ++ ['"'])

/-- The state of a `gcexport.CsvFilter`: the template key list
(`__csv_columns`), the key-to-header dict (`__csv_headers`), the header
list in declared order (`__csv_field_names`, handed to `DictWriter` as
`fieldnames`), and the row buffer (`__current_row`). -/
structure CsvFilter where
  csv_columns : List String
  csv_headers : List (String × String)
  csv_field_names : List String
  current_row : List (String × PyValue)
deriving DecidableEq

/-- The `__csv_field_names` loop of `CsvFilter.__init__`:
`self.__csv_headers[column]` for each configured column (a `KeyError`
would propagate; the loader in fact always covers every key). -/
def buildFieldNames (headers : List (String × String)) :
    List String → Except PyErr (List String)
  | [] => .ok []
  | c :: rest =>
      match assocGet headers c with
      | some h => (buildFieldNames headers rest).map (fun t => h :: t)
      | none => .error .keyError

/-- `CsvFilter.__init__(csv_file, csv_header_properties)` as a function of
the property-file content: load the template, derive the field names,
start with an empty row buffer. -/
def CsvFilter.init (csv_header_props : String) : Except PyErr CsvFilter :=
  let pk := load_properties csv_header_props
  match buildFieldNames pk.1 pk.2 with
  | .error e => .error e
  | .ok fns => .ok ⟨pk.2, pk.1, fns, []⟩

/-- `CsvFilter.set_column(name, value)`: store
`__csv_headers[name] -> value` when the value is truthy and the column is
configured, else leave the buffer unchanged. -/
def set_column (f : CsvFilter) (name : String) (v : PyValue) :
    Except PyErr CsvFilter :=
  if truthy v ∧ name ∈ f.csv_columns then
    match assocGet f.csv_headers name with
    | some h => .ok { f with current_row := assocInsert f.current_row h v }
    | none => .error .keyError
  else .ok f

/-- `CsvFilter.write_row()` via `csv.DictWriter.writerow` with
`QUOTE_ALL`: a key outside `fieldnames` raises `ValueError`
(`extrasaction="raise"`); otherwise one quoted field per field name in
declared order, the buffered value where set and the empty string
(`restval=None`, rendered empty) where not; the buffer is then cleared. -/
def write_row (f : CsvFilter) : Except PyErr (List String × CsvFilter) :=
  if ∀ e ∈ f.current_row, e.1 ∈ f.csv_field_names then
    .ok (f.csv_field_names.map (fun h =>
           csvQuote (match assocGet f.current_row h with
             | some v => pyStrOf v
             | none => "")),
         { f with current_row := [] })
  else .error .valueError

/-- A sequence of `set_column` calls for one row. -/
def applySets (f : CsvFilter) : List (String × PyValue) → Except PyErr CsvFilter
  | [] => .ok f
  | (n, v) :: rest =>
      match set_column f n v with
      | .error e => .error e
      | .ok f2 => applySets f2 rest

/-- An interleaving of `set_column` and `write_row` calls. -/
inductive CsvOp where
  | set (name : String) (v : PyValue)
  | flush
deriving DecidableEq

def applyOps (f : CsvFilter) : List CsvOp → Except PyErr CsvFilter
  | [] => .ok f
  | .set n v :: rest =>
      match set_column f n v with
      | .error e => .error e
      | .ok f2 => applyOps f2 rest
  | .flush :: rest =>
      match write_row f with
      | .error e => .error e
      | .ok p => applyOps p.2 rest

/-! ### Helper lemmas about the ledger embedding -/

theorem sortIds_sorted (l : List String) : (sortIds l).Sorted (fun a b => a ≤ b) := by
  apply List.sorted_insertionSort

theorem sortIds_perm (l : List String) : (sortIds l).Perm l := by
  apply List.perm_insertionSort

theorem sortIds_congr {a b : List String} (h : a.Perm b) : sortIds a = sortIds b := by
  apply List.eq_of_perm_of_sorted ((sortIds_perm a).trans (h.trans (sortIds_perm b).symm))
    (sortIds_sorted a) (sortIds_sorted b)

theorem sortIds_single (x : String) : sortIds [x] = [x] := rfl

theorem anyEq (l : List String) (id : String) :
    ((l.map JValue.jstr).any fun x => match x with | .jstr s => s = id | _ => false) =
      decide (id ∈ l) := by
  induction l with
  | nil => simp
  | cons a t ih =>
    simp only [List.map_cons, List.any_cons, ih, List.mem_cons]
    by_cases h : id = a
    · subst h; simp
    · have h2 : ¬ a = id := fun e => h e.symm
      simp [h, h2]

theorem allStrings_map_jstr (l : List String) :
    allStrings (l.map .jstr) = some l := by
  induction l with
  | nil => rfl
  | cons a t ih => simp [allStrings, ih]

/-- A call on a well-formed ledger: no-op when the ID is present, else
append, sort, rewrite. -/
theorem update_mkLedger (id : String) (l : List String) :
    update_download_stats id (mkLedger l) =
      if id ∈ l then .ok (mkLedger l)
      else .ok (mkLedger (sortIds (l ++ [id]))) := by
  unfold update_download_stats mkLedger
  simp only [pyDictOf, List.map_cons, List.map_nil, dictContains, List.any_cons,
    List.any_nil, pyKeyEq, dictGet, dictInsert, pyIn, anyEq, allStrings_map_jstr,
    appendAndSort, dumpsRoundtrip, assocInsert, keyToString, KEY_IDS,
    decide_True, Bool.or_false, if_true, List.foldl_cons, List.foldl_nil]
  by_cases hm : id ∈ l
  · simp [hm]
  · simp [hm, allStrings_map_jstr]

/-- A call on an absent file, unparseable bytes, the empty JSON object,
or the initial `json.dumps("")` placeholder all produce `{"ids": [id]}`. -/
theorem update_emptyish (id : String) (st : LedgerFile)
    (h : st = .absent ∨ st = .stored none ∨ st = .stored (some (.jstr "")) ∨
         st = .stored (some (.jobj []))) :
    update_download_stats id st = .ok (.stored (some (.jobj [(KEY_IDS, .jarr [.jstr id])]))) := by
  rcases h with h | h | h | h <;> subst h <;> rfl

theorem iterUpdate_noop (id : String) (k : Nat) (m : List String) (hm : id ∈ m) :
    iterUpdate id k (mkLedger m) = .ok (mkLedger m) := by
  induction k with
  | zero => rfl
  | succ k ih =>
    rw [iterUpdate, update_mkLedger, if_pos hm]
    exact ih

/-- Distinct new IDs inserted into a sorted, duplicate-free ledger end in
the sort of the concatenation. -/
theorem runUpdates_mkLedger (ids : List String) (l : List String)
    (hs : l.Sorted (fun a b => a ≤ b)) (hnd : (l ++ ids).Nodup) :
    runUpdates ids (mkLedger l) = .ok (mkLedger (sortIds (l ++ ids))) := by
  induction ids generalizing l with
  | nil =>
    rw [runUpdates, List.append_nil]
    rw [show sortIds l = l from List.Sorted.insertionSort_eq hs]
  | cons i rest ih =>
    have hni : i ∉ l := by
      intro hmem
      exact (List.disjoint_of_nodup_append hnd) hmem (List.mem_cons_self i rest)
    have hperm : (sortIds (l ++ [i]) ++ rest).Perm (l ++ i :: rest) := by
      have h1 := (sortIds_perm (l ++ [i])).append_right rest
      have h2 : ((l ++ [i]) ++ rest) = l ++ i :: rest := by simp
      rw [h2] at h1
      exact h1
    have hstep : runUpdates (i :: rest) (mkLedger l) =
        runUpdates rest (mkLedger (sortIds (l ++ [i]))) := by
      rw [runUpdates, update_mkLedger, if_neg hni]
    rw [hstep, ih (sortIds (l ++ [i])) (sortIds_sorted _)
      (hperm.nodup_iff.2 (by simpa using hnd))]
    rw [sortIds_congr hperm]

theorem pyKeyEq_refl (k : PyKey) : pyKeyEq k k = true := by
  cases k <;> simp [pyKeyEq]

theorem dictGet_dictInsert_self (d : PyDict) (k : PyKey) (v : JValue) :
    dictGet (dictInsert d k v) k = some v := by
  induction d with
  | nil => simp [dictInsert, dictGet, pyKeyEq_refl]
  | cons e rest ih =>
    by_cases h : pyKeyEq e.1 k = true
    · simp [dictInsert, dictGet, h]
    · have hf : pyKeyEq e.1 k = false := by simpa using h
      simp [dictInsert, dictGet, hf, ih]

theorem dictInsert_of_not_contains (d : PyDict) (k : PyKey) (v : JValue)
    (h : dictContains d k = false) : dictInsert d k v = d ++ [(k, v)] := by
  induction d with
  | nil => rfl
  | cons e rest ih =>
    simp only [dictContains, List.any_cons, Bool.or_eq_false_iff] at h
    simp only [dictInsert, h.1, Bool.false_eq_true, if_false, List.cons_append,
      List.cons.injEq, true_and]
    exact ih (by simp [dictContains, h.2])

theorem dictInsert_append_self (d : PyDict) (k : PyKey) (w v : JValue)
    (h : dictContains d k = false) :
    dictInsert (d ++ [(k, w)]) k v = d ++ [(k, v)] := by
  induction d with
  | nil => simp [dictInsert, pyKeyEq_refl]
  | cons e rest ih =>
    simp only [dictContains, List.any_cons, Bool.or_eq_false_iff] at h
    simp only [List.cons_append, dictInsert, h.1, Bool.false_eq_true, if_false,
      List.cons.injEq, true_and]
    exact ih (by simp [dictContains, h.2])

theorem assocGet_assocInsert_self {α : Type} (l : List (String × α)) (k : String) (v : α) :
    assocGet (assocInsert l k v) k = some v := by
  induction l with
  | nil => simp [assocInsert, assocGet]
  | cons e rest ih =>
    by_cases h : e.1 = k
    · simp [assocInsert, assocGet, h]
    · simp [assocInsert, assocGet, h, ih]

/-! ### C1 through C4: the download ledger -/

/-- The initial directory states quantified over in the idempotence
claim: no ledger file, or a well-formed ledger with the given IDs. -/
def startOf : Option (List String) → LedgerFile
  | none => .absent
  | some l => mkLedger l

/-- C1 (amended): on a directory whose ledger file is absent or holds a
JSON object with a string-array `ids` member containing the ID at most
once, any positive number of `update_download_stats` calls succeeds and
leaves `ids` containing the ID exactly once, and a call whose ID is
already present returns without changing the file. -/
theorem update_download_stats_idempotent (id : String) (init : Option (List String))
    (n : Nat) (hn : 0 < n) (hc : (init.getD []).count id ≤ 1) :
    (∃ l2, iterUpdate id n (startOf init) = .ok (mkLedger l2) ∧ l2.count id = 1) ∧
    (∀ m : List String, id ∈ m →
        update_download_stats id (mkLedger m) = .ok (mkLedger m)) := by
  constructor
  · obtain ⟨k, rfl⟩ : ∃ k, n = k + 1 := ⟨n - 1, by omega⟩
    cases init with
    | none =>
      refine ⟨[id], ?_, by simp⟩
      have h1 : update_download_stats id .absent = .ok (mkLedger [id]) :=
        update_emptyish id _ (Or.inl rfl)
      rw [show startOf none = .absent from rfl, iterUpdate, h1]
      exact iterUpdate_noop id k [id] (by simp)
    | some l =>
      simp only [Option.getD_some] at hc
      by_cases hm : id ∈ l
      · refine ⟨l, ?_, ?_⟩
        · rw [show startOf (some l) = mkLedger l from rfl, iterUpdate,
            update_mkLedger, if_pos hm]
          exact iterUpdate_noop id k l hm
        · have h1 : 0 < l.count id := List.count_pos_iff.2 hm
          omega
      · refine ⟨sortIds (l ++ [id]), ?_, ?_⟩
        · rw [show startOf (some l) = mkLedger l from rfl, iterUpdate,
            update_mkLedger, if_neg hm]
          exact iterUpdate_noop id k _ (((sortIds_perm _).mem_iff).2 (by simp))
        · rw [(sortIds_perm _).count_eq, List.count_append]
          have h0 : l.count id = 0 := by
            simpa using List.count_eq_zero.2 hm
          simp [h0]
  · intro m hm
    rw [update_mkLedger, if_pos hm]

/-- C1 witness: two calls on an empty directory. -/
theorem update_download_stats_idempotent_witness :
    (∃ l2, iterUpdate "1000" 2 (startOf none) = .ok (mkLedger l2) ∧ l2.count "1000" = 1) ∧
    (∀ m : List String, "1000" ∈ m →
        update_download_stats "1000" (mkLedger m) = .ok (mkLedger m)) :=
  update_download_stats_idempotent "1000" none 2 (by decide) (by decide)

/-- C1 counterexample: the claim quantifies over every directory state,
but on a ledger file holding the JSON number `5` the call raises
`TypeError` (from `dict(5)`) on both attempts, so no ledger whose `ids`
contains the ID once ever results. -/
theorem update_twice_on_number_ledger_raises :
    iterUpdate "1000" 2 (.stored (some (.jnum 5))) = .error .typeError := rfl

/-- Shared start-state computation for the ordering claim. -/
theorem runUpdates_start (ids : List String) (st : LedgerFile) (hnd : ids.Nodup)
    (hne : ids ≠ [])
    (hst : st = .absent ∨ st = mkLedger [] ∨ st = .stored (some (.jobj []))) :
    runUpdates ids st = .ok (mkLedger (sortIds ids)) := by
  rcases hst with h | h | h
  · subst h
    cases ids with
    | nil => exact absurd rfl hne
    | cons i rest =>
      have h1 : update_download_stats i LedgerFile.absent = .ok (mkLedger [i]) :=
        update_emptyish i _ (Or.inl rfl)
      rw [runUpdates, h1]
      exact runUpdates_mkLedger rest [i] (List.sorted_singleton i) (by simpa using hnd)
  · subst h
    simpa using runUpdates_mkLedger ids [] List.sorted_nil (by simpa using hnd)
  · subst h
    cases ids with
    | nil => exact absurd rfl hne
    | cons i rest =>
      have h1 : update_download_stats i (.stored (some (.jobj []))) = .ok (mkLedger [i]) :=
        update_emptyish i _ (by simp)
      rw [runUpdates, h1]
      exact runUpdates_mkLedger rest [i] (List.sorted_singleton i) (by simpa using hnd)

/-- C2: any sequence of calls with distinct IDs starting from an absent
or empty ledger ends with a duplicate-free `ids` array sorted in
ascending lexicographic string order, independently of call order. -/
theorem update_download_stats_sorted_invariant (ids : List String) (st : LedgerFile)
    (hnd : ids.Nodup) (hne : ids ≠ [])
    (hst : st = .absent ∨ st = mkLedger [] ∨ st = .stored (some (.jobj []))) :
    runUpdates ids st = .ok (mkLedger (sortIds ids)) ∧
    (sortIds ids).Sorted (fun a b => a ≤ b) ∧
    (sortIds ids).Nodup ∧
    ∀ ids2, ids.Perm ids2 → runUpdates ids2 st = runUpdates ids st := by
  refine ⟨runUpdates_start ids st hnd hne hst, sortIds_sorted ids,
    (sortIds_perm ids).nodup_iff.2 hnd, ?_⟩
  intro ids2 hp
  have hnd2 : ids2.Nodup := hp.nodup_iff.1 hnd
  have hne2 : ids2 ≠ [] := by
    intro h
    subst h
    exact hne hp.eq_nil
  rw [runUpdates_start ids2 st hnd2 hne2 hst, runUpdates_start ids st hnd hne hst,
    sortIds_congr hp.symm]

/-- C2 witness: inserting 1010, 1000, 1005 yields 1000, 1005, 1010. -/
theorem update_download_stats_sorted_invariant_witness :
    runUpdates ["1010", "1000", "1005"] .absent =
      .ok (mkLedger (sortIds ["1010", "1000", "1005"])) ∧
    (sortIds ["1010", "1000", "1005"]).Sorted (fun a b => a ≤ b) ∧
    (sortIds ["1010", "1000", "1005"]).Nodup ∧
    ∀ ids2, List.Perm ["1010", "1000", "1005"] ids2 →
      runUpdates ids2 .absent = runUpdates ["1010", "1000", "1005"] .absent :=
  update_download_stats_sorted_invariant ["1010", "1000", "1005"] .absent
    (by decide) (by decide) (Or.inl rfl)

/-- C4: a ledger file whose bytes are not valid JSON is recovered from:
the parse error is caught, the content replaced, and the rewritten
ledger holds exactly the newly inserted ID. -/
theorem update_on_invalid_json_selfheals (id : String) :
    update_download_stats id (.stored none) = .ok (mkLedger [id]) :=
  update_emptyish id _ (by simp)

/-- C3 counterexample: on a ledger file holding the JSON string
`"HUGO"`, `dict("HUGO")` raises `ValueError`, which propagates; the
value is not discarded and no fresh object is produced. -/
theorem update_on_string_ledger_raises :
    update_download_stats "1000" (.stored (some (.jstr "HUGO"))) = .error .valueError := rfl

/-- C3 (amended): for a non-object ledger value, the call succeeds only
when Python `dict()` succeeds on it; then, provided the converted dict
has no junk `ids` entry, the rewritten ledger is a JSON object whose
`ids` member is exactly the newly inserted ID (other dict entries are
retained, not discarded).  When `dict()` raises, the exception
propagates and the file keeps its old bytes. -/
theorem update_nonobject_selfheal (id : String) (v : JValue)
    (_hno : ∀ fields, v ≠ .jobj fields) :
    (∀ e, pyDictOf v = .error e →
        update_download_stats id (.stored (some v)) = .error e) ∧
    (∀ d, pyDictOf v = .ok d → dictContains d (.kstr KEY_IDS) = false →
        ∃ fields, update_download_stats id (.stored (some v)) =
            .ok (.stored (some (.jobj fields))) ∧
          assocGet fields KEY_IDS = some (.jarr [.jstr id])) := by
  constructor
  · intro e he
    simp only [update_download_stats]
    rw [he]
  · intro d hd hni
    simp only [update_download_stats]
    simp only [hd, hni, Bool.false_eq_true, if_false, dictGet_dictInsert_self,
      pyIn, List.any_nil, appendAndSort, allStrings, List.nil_append,
      sortIds_single, List.map_cons, List.map_nil]
    rw [dictInsert_of_not_contains d _ _ hni,
      dictInsert_append_self d _ _ _ hni]
    refine ⟨_, rfl, ?_⟩
    simp only [dumpsRoundtrip, List.foldl_append, List.foldl_cons, List.foldl_nil,
      keyToString]
    exact assocGet_assocInsert_self _ _ _

/-- C3 witness: a ledger holding the empty JSON array is healed into
a ledger holding exactly the inserted ID. -/
theorem update_nonobject_selfheal_witness :
    ∃ fields, update_download_stats "1000" (.stored (some (.jarr []))) =
        .ok (.stored (some (.jobj fields))) ∧
      assocGet fields KEY_IDS = some (.jarr [.jstr "1000"]) :=
  (update_nonobject_selfheal "1000" (.jarr []) (fun _ h => JValue.noConfusion h)).2
    [] rfl rfl

/-! ### C7 and C10: the exclusion list reader -/

/-- C7: `read_exclude` reports absence (never an exception) for a
missing path, a non-file path, or unparseable bytes; on a JSON object
with an `ids` key it returns that member verbatim, with no validation
of element type or uniqueness. -/
theorem read_exclude_contract (p : ExcludePath) :
    ((p = .missing ∨ p = .notFile ∨ p = .file none) → read_exclude p = .ok none) ∧
    (∀ fields arr, p = .file (some (.jobj fields)) →
        assocGetLast fields "ids" = some arr → read_exclude p = .ok (some arr)) := by
  constructor
  · rintro (h | h | h) <;> subst h <;> rfl
  · rintro fields arr rfl h
    simp [read_exclude, h]

/-- C7 witness: the four-ID exclusion file of the test suite is returned
verbatim, and a missing path reports absence. -/
theorem read_exclude_contract_witness :
    read_exclude (.file (some (.jobj [("ids",
        .jarr [.jstr "1001", .jstr "1002", .jstr "1010", .jstr "1003"])]))) =
      .ok (some (.jarr [.jstr "1001", .jstr "1002", .jstr "1010", .jstr "1003"])) ∧
    read_exclude .missing = .ok none :=
  ⟨(read_exclude_contract _).2 _ _ rfl rfl,
   (read_exclude_contract _).1 (Or.inl rfl)⟩

/-- C10: on valid JSON that is not an object carrying an `ids` key,
`read_exclude` raises: `KeyError` for an object without the key,
`TypeError` for any non-object value; only the decode-failure branch
returns absence. -/
theorem read_exclude_raises_on_non_ids_json (v : JValue) :
    (∀ fields, v = .jobj fields → assocGetLast fields "ids" = none →
        read_exclude (.file (some v)) = .error .keyError) ∧
    ((∀ fields, v ≠ .jobj fields) → read_exclude (.file (some v)) = .error .typeError) := by
  constructor
  · rintro fields rfl h
    simp [read_exclude, h]
  · intro h
    cases v with
    | jobj fields => exact absurd rfl (h fields)
    | jnull => rfl
    | jbool b => rfl
    | jnum n => rfl
    | jstr s => rfl
    | jarr l => rfl

/-- C10 witness: an object without `ids` raises `KeyError`; a top-level
array raises `TypeError`. -/
theorem read_exclude_raises_witness :
    read_exclude (.file (some (.jobj [("a", .jnull)]))) = .error .keyError ∧
    read_exclude (.file (some (.jarr []))) = .error .typeError :=
  ⟨(read_exclude_raises_on_non_ids_json _).1 _ rfl rfl,
   (read_exclude_raises_on_non_ids_json _).2 (fun _ h => JValue.noConfusion h)⟩

/-! ### C8: the detail-fetch retry policy -/

theorem fetchLoop_falsy (resp : Nat → JValue) (t c : Nat) (s : JValue)
    (hs : summaryLookup (resp c) = .ok s) (hf : jTruthy s = false) (ht : 0 < t) :
    fetchLoop resp (t + 1) c = fetchLoop resp t (c + 1) := by
  simp only [fetchLoop, hs, hf, Bool.false_eq_true, if_false]
  rw [if_neg (by omega)]

theorem fetchLoop_truthy (resp : Nat → JValue) (t c : Nat) (s : JValue)
    (hs : summaryLookup (resp c) = .ok s) (ht : jTruthy s = true) :
    fetchLoop resp (t + 1) c = .ok (resp c, c + 1) := by
  simp only [fetchLoop, hs, ht, if_true]

theorem fetchLoop_err (resp : Nat → JValue) (t c : Nat) (e : PyErr)
    (hs : summaryLookup (resp c) = .error e) :
    fetchLoop resp (t + 1) c = .error (e, c + 1) := by
  simp only [fetchLoop, hs]

theorem fetchLoop_exhaust (resp : Nat → JValue) (c : Nat) (s : JValue)
    (hs : summaryLookup (resp c) = .ok s) (hf : jTruthy s = false) :
    fetchLoop resp 1 c = .error (.garminError, c + 1) := by
  simp only [fetchLoop, hs, hf, Bool.false_eq_true, if_false, if_pos rfl, if_true]

/-- C8 (amended): when every earlier payload carried a present-but-falsy
`summaryDTO`, attempt `j < MAX_TRIES` returns the payload as soon as its
`summaryDTO` is present and non-empty, while a payload without the key
(or a non-object payload) raises that subscript error immediately
instead of being retried; and `MAX_TRIES` falsy payloads in a row end in
the fatal `GarminException` after exactly `MAX_TRIES` HTTP calls. -/
theorem fetch_details_retry (resp : Nat → JValue) (j : Nat)
    (hprev : ∀ i, i < j → ∃ s, summaryLookup (resp i) = .ok s ∧ jTruthy s = false) :
    (j < MAX_TRIES →
      (∀ s, summaryLookup (resp j) = .ok s → jTruthy s = true →
          fetch_details resp = .ok (resp j, j + 1)) ∧
      (∀ e, summaryLookup (resp j) = .error e →
          fetch_details resp = .error (e, j + 1))) ∧
    (j = MAX_TRIES → fetch_details resp = .error (.garminError, MAX_TRIES)) := by
  rcases j with _ | _ | _ | _ | j
  · refine ⟨fun _ => ⟨?_, ?_⟩, fun h => by simp [MAX_TRIES] at h⟩
    · intro s hs ht
      exact fetchLoop_truthy resp 2 0 s hs ht
    · intro e he
      exact fetchLoop_err resp 2 0 e he
  · obtain ⟨s0, hs0, hf0⟩ := hprev 0 (by omega)
    have h0 : fetch_details resp = fetchLoop resp 2 1 :=
      fetchLoop_falsy resp 2 0 s0 hs0 hf0 (by omega)
    refine ⟨fun _ => ⟨?_, ?_⟩, fun h => by simp [MAX_TRIES] at h⟩
    · intro s hs ht
      rw [h0]
      exact fetchLoop_truthy resp 1 1 s hs ht
    · intro e he
      rw [h0]
      exact fetchLoop_err resp 1 1 e he
  · obtain ⟨s0, hs0, hf0⟩ := hprev 0 (by omega)
    obtain ⟨s1, hs1, hf1⟩ := hprev 1 (by omega)
    have h0 : fetch_details resp = fetchLoop resp 1 2 := by
      rw [show fetch_details resp = fetchLoop resp 3 0 from rfl,
        fetchLoop_falsy resp 2 0 s0 hs0 hf0 (by omega),
        fetchLoop_falsy resp 1 1 s1 hs1 hf1 (by omega)]
    refine ⟨fun _ => ⟨?_, ?_⟩, fun h => by simp [MAX_TRIES] at h⟩
    · intro s hs ht
      rw [h0]
      exact fetchLoop_truthy resp 0 2 s hs ht
    · intro e he
      rw [h0]
      exact fetchLoop_err resp 0 2 e he
  · obtain ⟨s0, hs0, hf0⟩ := hprev 0 (by omega)
    obtain ⟨s1, hs1, hf1⟩ := hprev 1 (by omega)
    obtain ⟨s2, hs2, hf2⟩ := hprev 2 (by omega)
    refine ⟨fun h => by simp [MAX_TRIES] at h, fun _ => ?_⟩
    rw [show fetch_details resp = fetchLoop resp 3 0 from rfl,
      fetchLoop_falsy resp 2 0 s0 hs0 hf0 (by omega),
      fetchLoop_falsy resp 1 1 s1 hs1 hf1 (by omega),
      fetchLoop_exhaust resp 2 s2 hs2 hf2]
    rfl
  · refine ⟨fun h => absurd h (by simp [MAX_TRIES]), fun h => absurd h (by simp [MAX_TRIES])⟩

/-- C8 witness: three payloads whose `summaryDTO` is present but empty
exhaust the retries and raise the fatal error after three calls. -/
theorem fetch_details_retry_witness :
    fetch_details (fun _ => .jobj [("summaryDTO", .jobj [])]) =
      .error (.garminError, MAX_TRIES) :=
  (fetch_details_retry (fun _ => .jobj [("summaryDTO", .jobj [])]) 3
    (fun _ _ => ⟨.jobj [], rfl, rfl⟩)).2 rfl

/-- C8 counterexample: a payload with no `summaryDTO` key at all is not
retried up to MAX_TRIES and does not end in the fatal exception; the
first subscript raises `KeyError` after a single HTTP call. -/
theorem fetch_details_missing_key_raises :
    fetch_details (fun _ => .jobj []) = .error (.keyError, 1) := rfl

/-! ### C9: the column template loader -/

theorem assocGet_assocInsert_ne {α : Type} (l : List (String × α)) (k c : String)
    (v : α) (h : c ≠ k) : assocGet (assocInsert l k v) c = assocGet l c := by
  have h2 : ¬ k = c := fun e2 => h e2.symm
  induction l with
  | nil => simp [assocInsert, assocGet, h2]
  | cons e rest ih =>
    by_cases he : e.1 = k
    · simp [assocInsert, assocGet, he, h2]
    · simp only [assocInsert, assocGet, he, if_false]
      by_cases hc : e.1 = c
      · simp [hc]
      · simp [hc, ih]

theorem assocInsert_of_fresh {α : Type} (l : List (String × α)) (k : String) (v : α)
    (h : k ∉ l.map Prod.fst) : assocInsert l k v = l ++ [(k, v)] := by
  induction l with
  | nil => rfl
  | cons e rest ih =>
    simp only [List.map_cons, List.mem_cons] at h
    push_neg at h
    have hne : ¬ e.1 = k := fun e2 => h.1 e2.symm
    simp only [assocInsert, if_neg hne, List.cons_append, List.cons.injEq, true_and]
    exact ih h.2

/-- Each line either leaves the loader state unchanged or inserts one
key/value pair and appends the key. -/
theorem loadPropsLine_cases (st : List (String × String) × List String) (ln : List Char) :
    loadPropsLine '=' '#' st ln = st ∨
    ∃ key val, loadPropsLine '=' '#' st ln = (assocInsert st.1 key val, st.2 ++ [key]) := by
  unfold loadPropsLine
  by_cases h : pyStrip ln ≠ [] ∧ ¬ ((pyStrip ln).head? = some '#')
  · rw [if_pos h]
    rcases hsp : splitOnChar '=' (pyStrip ln) with _ | ⟨k0, rest⟩
    · exact Or.inl rfl
    · exact Or.inr ⟨_, _, rfl⟩
  · rw [if_neg h]
    exact Or.inl rfl

/-- The key list only ever grows at its end. -/
theorem loadProps_keys_ext (lines : List (List Char))
    (st : List (String × String) × List String) :
    ∃ t, (lines.foldl (loadPropsLine '=' '#') st).2 = st.2 ++ t := by
  induction lines generalizing st with
  | nil => exact ⟨[], by simp⟩
  | cons ln rest ih =>
    rw [List.foldl_cons]
    rcases loadPropsLine_cases st ln with h | ⟨key, val, h⟩
    · rw [h]
      exact ih st
    · rw [h]
      obtain ⟨t, ht⟩ := ih (assocInsert st.1 key val, st.2 ++ [key])
      exact ⟨key :: t, by simpa using ht⟩

/-- Loader invariant: as long as the accumulated keys are exactly the
dict keys in order and the final key list is duplicate-free, the dict
keys remain exactly the key list in order. -/
theorem loadProps_coindexed_aux (lines : List (List Char))
    (st : List (String × String) × List String)
    (hinv : st.1.map Prod.fst = st.2)
    (hnd : ((lines.foldl (loadPropsLine '=' '#') st).2).Nodup) :
    ((lines.foldl (loadPropsLine '=' '#') st).1).map Prod.fst =
      (lines.foldl (loadPropsLine '=' '#') st).2 := by
  induction lines generalizing st with
  | nil => exact hinv
  | cons ln rest ih =>
    rw [List.foldl_cons] at hnd ⊢
    rcases loadPropsLine_cases st ln with h | ⟨key, val, h⟩
    · rw [h] at hnd ⊢
      exact ih st hinv hnd
    · rw [h] at hnd ⊢
      have hfresh : key ∉ st.2 := by
        obtain ⟨t, ht⟩ := loadProps_keys_ext rest (assocInsert st.1 key val, st.2 ++ [key])
        rw [ht] at hnd
        intro hmem
        have hnd2 : (st.2 ++ [key]).Nodup := (List.nodup_append.1 hnd).1
        exact (List.disjoint_of_nodup_append hnd2) hmem (List.mem_singleton_self key)
      apply ih
      · rw [assocInsert_of_fresh st.1 key val (hinv ▸ hfresh)]
        simp [hinv]
      · exact hnd

/-- C9 (amended): when the accepted property lines carry pairwise
distinct keys, the ordered key list and the key-to-header dict are
co-indexed entry by entry (hence of equal length); with a repeated key
the key list is strictly longer than the dict, so the stated invariant
fails in general. -/
theorem load_properties_coindexed (content : String)
    (hnd : ((load_properties content).2).Nodup) :
    ((load_properties content).1).map Prod.fst = (load_properties content).2 ∧
    ((load_properties content).1).length = ((load_properties content).2).length := by
  have h : ((load_properties content).1).map Prod.fst = (load_properties content).2 :=
    loadProps_coindexed_aux (splitOnChar '\n' content.data) ([], []) rfl hnd
  refine ⟨h, ?_⟩
  rw [← h]
  exact (List.length_map _ _).symm

/-- C9 witness: a template with a comment line, a blank line and two
distinct keys. -/
theorem load_properties_coindexed_witness :
    ((load_properties "# note\n\na=Ha\nb=Hb").1).map Prod.fst =
      (load_properties "# note\n\na=Ha\nb=Hb").2 ∧
    ((load_properties "# note\n\na=Ha\nb=Hb").1).length =
      ((load_properties "# note\n\na=Ha\nb=Hb").2).length :=
  load_properties_coindexed "# note\n\na=Ha\nb=Hb" (by decide)

/-- C9 counterexample: with the repeated key of `a=1` and `a=2` the key
list has two entries while the dict has one, so the claimed equal-length
co-indexing fails on repeated keys. -/
theorem load_properties_repeated_key_mismatch :
    ((load_properties "a=1\na=2").1).length ≠ ((load_properties "a=1\na=2").2).length := by
  decide

/-! ### C5 and C6: the CSV column projector -/

theorem mem_assocInsert {α : Type} (l : List (String × α)) (a : String) (u : α)
    (k : String) (w : α) (hm : (k, w) ∈ assocInsert l a u) :
    (k, w) ∈ l ∨ (k = a ∧ w = u) := by
  induction l with
  | nil =>
    rcases List.mem_singleton.1 hm with h
    exact Or.inr ⟨congrArg Prod.fst h, congrArg Prod.snd h⟩
  | cons e rest ih =>
    by_cases he : e.1 = a
    · rw [assocInsert, if_pos he] at hm
      rcases List.mem_cons.1 hm with h | h
      · exact Or.inr ⟨(congrArg Prod.fst h).trans he, congrArg Prod.snd h⟩
      · exact Or.inl (List.mem_cons_of_mem e h)
    · rw [assocInsert, if_neg he] at hm
      rcases List.mem_cons.1 hm with h | h
      · exact Or.inl (h ▸ List.mem_cons_self e rest)
      · rcases ih h with h2 | h2
        · exact Or.inl (List.mem_cons_of_mem e h2)
        · exact Or.inr h2

theorem assocGet_mem {α : Type} (l : List (String × α)) (k : String) (v : α)
    (h : assocGet l k = some v) : (k, v) ∈ l := by
  induction l with
  | nil => cases h
  | cons e rest ih =>
    by_cases he : e.1 = k
    · rw [assocGet, if_pos he] at h
      injection h with h2
      subst h2
      subst he
      exact List.mem_cons_self _ _
    · rw [assocGet, if_neg he] at h
      exact List.mem_cons_of_mem e (ih h)

/-- Every key the loader accumulates has a header in the dict. -/
theorem loadProps_covered_aux (lines : List (List Char))
    (st : List (String × String) × List String)
    (hinv : ∀ c ∈ st.2, ∃ h, assocGet st.1 c = some h) :
    ∀ c ∈ (lines.foldl (loadPropsLine '=' '#') st).2,
      ∃ h, assocGet (lines.foldl (loadPropsLine '=' '#') st).1 c = some h := by
  induction lines generalizing st with
  | nil => exact hinv
  | cons ln rest ih =>
    rw [List.foldl_cons]
    rcases loadPropsLine_cases st ln with h | ⟨key, val, h⟩
    · rw [h]
      exact ih st hinv
    · rw [h]
      apply ih
      intro c hc
      rcases List.mem_append.1 hc with hc | hc
      · by_cases hck : c = key
        · subst hck
          exact ⟨val, assocGet_assocInsert_self _ _ _⟩
        · obtain ⟨hv, hg⟩ := hinv c hc
          exact ⟨hv, by rw [assocGet_assocInsert_ne _ _ _ _ hck]; exact hg⟩
      · rw [List.mem_singleton] at hc
        subst hc
        exact ⟨val, assocGet_assocInsert_self _ _ _⟩

theorem load_properties_covered (content : String) :
    ∀ c ∈ (load_properties content).2,
      ∃ h, assocGet (load_properties content).1 c = some h :=
  loadProps_covered_aux _ ([], []) (by intro c hc; cases hc)

theorem buildFieldNames_exists (headers : List (String × String)) (cols : List String)
    (hcov : ∀ c ∈ cols, ∃ h, assocGet headers c = some h) :
    ∃ fns, buildFieldNames headers cols = .ok fns := by
  induction cols with
  | nil => exact ⟨[], rfl⟩
  | cons c rest ih =>
    obtain ⟨h, hg⟩ := hcov c (List.mem_cons_self c rest)
    obtain ⟨fns, hf⟩ := ih (fun c2 hc2 => hcov c2 (List.mem_cons_of_mem _ hc2))
    exact ⟨h :: fns, by simp [buildFieldNames, hg, hf, Except.map]⟩

theorem buildFieldNames_length (headers : List (String × String)) (cols : List String)
    (fns : List String) (hbf : buildFieldNames headers cols = .ok fns) :
    fns.length = cols.length := by
  induction cols generalizing fns with
  | nil =>
    injection hbf with h
    subst h
    rfl
  | cons c rest ih =>
    rcases hg : assocGet headers c with _ | h0
    · rw [buildFieldNames, hg] at hbf
      cases hbf
    · rw [buildFieldNames, hg] at hbf
      rcases hrest : buildFieldNames headers rest with e | fns0
      · rw [hrest] at hbf
        cases hbf
      · rw [hrest] at hbf
        injection hbf with h2
        subst h2
        simp [ih fns0 hrest]

theorem buildFieldNames_mem (headers : List (String × String)) (cols : List String)
    (fns : List String) (hbf : buildFieldNames headers cols = .ok fns)
    (c : String) (hc : c ∈ cols) (h : String) (hg : assocGet headers c = some h) :
    h ∈ fns := by
  induction cols generalizing fns with
  | nil => cases hc
  | cons c0 rest ih =>
    rcases hg0 : assocGet headers c0 with _ | h0
    · rw [buildFieldNames, hg0] at hbf
      cases hbf
    · rw [buildFieldNames, hg0] at hbf
      rcases hrest : buildFieldNames headers rest with e | fns0
      · rw [hrest] at hbf
        cases hbf
      · rw [hrest] at hbf
        injection hbf with h2
        subst h2
        rcases List.mem_cons.1 hc with hcc | hcc
        · subst hcc
          rw [hg0] at hg
          injection hg with h3
          subst h3
          exact List.mem_cons_self _ _
        · exact List.mem_cons_of_mem _ (ih fns0 hrest hcc)

theorem init_spec (content : String) (g : CsvFilter)
    (hg : CsvFilter.init content = .ok g) :
    g.csv_columns = (load_properties content).2 ∧
    g.csv_headers = (load_properties content).1 ∧
    buildFieldNames g.csv_headers g.csv_columns = .ok g.csv_field_names ∧
    g.current_row = [] := by
  simp only [CsvFilter.init] at hg
  rcases hbf : buildFieldNames (load_properties content).1 (load_properties content).2
      with e | fns
  · rw [hbf] at hg
    cases hg
  · rw [hbf] at hg
    injection hg with h2
    subst h2
    exact ⟨rfl, rfl, hbf, rfl⟩

/-- Every property-file content yields a working filter. -/
theorem init_ok (content : String) : ∃ g, CsvFilter.init content = .ok g := by
  obtain ⟨fns, hbf⟩ := buildFieldNames_exists (load_properties content).1
    (load_properties content).2 (load_properties_covered content)
  refine ⟨⟨(load_properties content).2, (load_properties content).1, fns, []⟩, ?_⟩
  simp only [CsvFilter.init]
  rw [hbf]

theorem set_column_template (f f2 : CsvFilter) (n : String) (v : PyValue)
    (h : set_column f n v = .ok f2) :
    f2.csv_columns = f.csv_columns ∧ f2.csv_headers = f.csv_headers ∧
    f2.csv_field_names = f.csv_field_names := by
  unfold set_column at h
  by_cases hc : truthy v ∧ n ∈ f.csv_columns
  · rw [if_pos hc] at h
    rcases hgn : assocGet f.csv_headers n with _ | hh
    · rw [hgn] at h
      cases h
    · rw [hgn] at h
      injection h with h2
      subst h2
      exact ⟨rfl, rfl, rfl⟩
  · rw [if_neg hc] at h
    injection h with h2
    subst h2
    exact ⟨rfl, rfl, rfl⟩

theorem set_column_row (f f2 : CsvFilter) (n : String) (v : PyValue)
    (h : set_column f n v = .ok f2) (k : String) (w : PyValue)
    (hm : (k, w) ∈ f2.current_row) :
    (k, w) ∈ f.current_row ∨
    (truthy v = true ∧ n ∈ f.csv_columns ∧
      assocGet f.csv_headers n = some k ∧ w = v) := by
  unfold set_column at h
  by_cases hc : truthy v ∧ n ∈ f.csv_columns
  · rw [if_pos hc] at h
    rcases hgn : assocGet f.csv_headers n with _ | hh
    · rw [hgn] at h
      cases h
    · rw [hgn] at h
      injection h with h2
      subst h2
      rcases mem_assocInsert _ _ _ _ _ hm with hm2 | ⟨hk, hw⟩
      · exact Or.inl hm2
      · refine Or.inr ⟨hc.1, hc.2, ?_, hw⟩
        rw [hk]
  · rw [if_neg hc] at h
    injection h with h2
    subst h2
    exact Or.inl hm

theorem write_row_shape (f : CsvFilter) (p : List String × CsvFilter)
    (h : write_row f = .ok p) : p.2 = { f with current_row := [] } := by
  unfold write_row at h
  by_cases hc : ∀ e ∈ f.current_row, e.1 ∈ f.csv_field_names
  · rw [if_pos hc] at h
    injection h with h2
    subst h2
    rfl
  · rw [if_neg hc] at h
    cases h

theorem write_row_ok (f : CsvFilter)
    (hkeys : ∀ k w, (k, w) ∈ f.current_row → k ∈ f.csv_field_names) :
    write_row f = .ok
      (f.csv_field_names.map (fun h =>
        csvQuote (match assocGet f.current_row h with
          | some v => pyStrOf v
          | none => "")),
       { f with current_row := [] }) := by
  unfold write_row
  rw [if_pos ?hc]
  case hc =>
    intro e he
    exact hkeys e.1 e.2 (by rw [show ((e.1, e.2) : String × PyValue) = e from rfl]; exact he)

/-- A whole row of `set_column` calls on a covered filter: never raises,
leaves the template alone, and every buffered cell comes from a call
with a truthy value on a configured column. -/
theorem applySets_ok (f : CsvFilter) (cs : List (String × PyValue))
    (hcov : ∀ c ∈ f.csv_columns, ∃ h, assocGet f.csv_headers c = some h) :
    ∃ f1, applySets f cs = .ok f1 ∧
      f1.csv_columns = f.csv_columns ∧ f1.csv_headers = f.csv_headers ∧
      f1.csv_field_names = f.csv_field_names ∧
      (∀ k w, (k, w) ∈ f1.current_row → (k, w) ∈ f.current_row ∨
        ∃ p ∈ cs, truthy p.2 = true ∧ p.1 ∈ f.csv_columns ∧
          assocGet f.csv_headers p.1 = some k ∧ w = p.2) := by
  induction cs generalizing f with
  | nil => exact ⟨f, rfl, rfl, rfl, rfl, fun k w hm => Or.inl hm⟩
  | cons p rest ih =>
    rcases p with ⟨n, v⟩
    have hstep : ∃ fmid, set_column f n v = .ok fmid := by
      unfold set_column
      by_cases hc : truthy v ∧ n ∈ f.csv_columns
      · rw [if_pos hc]
        obtain ⟨h, hgn⟩ := hcov n hc.2
        rw [hgn]
        exact ⟨_, rfl⟩
      · rw [if_neg hc]
        exact ⟨f, rfl⟩
    obtain ⟨fmid, hmid⟩ := hstep
    obtain ⟨t1, t2, t3⟩ := set_column_template f fmid n v hmid
    obtain ⟨f1, ha, hb1, hb2, hb3, hrow⟩ := ih fmid (by rw [t1, t2]; exact hcov)
    refine ⟨f1, ?_, hb1.trans t1, hb2.trans t2, hb3.trans t3, ?_⟩
    · rw [applySets, hmid]
      exact ha
    · intro k w hm
      rcases hrow k w hm with hm2 | ⟨q, hq, hq1, hq2, hq3, hq4⟩
      · rcases set_column_row f fmid n v hmid k w hm2 with hm3 | ⟨u1, u2, u3, u4⟩
        · exact Or.inl hm3
        · exact Or.inr ⟨(n, v), List.mem_cons_self _ _, u1, u2, u3, u4⟩
      · rw [t1] at hq2
        rw [t2] at hq3
        exact Or.inr ⟨q, List.mem_cons_of_mem _ hq, hq1, hq2, hq3, hq4⟩

/-- C5: for every sequence of `set_column` calls for one row,
`write_row` emits exactly one record: one quoted field per configured
column in the declared template order, with a non-empty value only where
some call supplied a truthy value for a configured column; afterwards
the buffer is empty, so an immediate second `write_row` emits the
all-empty record. -/
theorem write_row_projection (content : String) (calls : List (String × PyValue))
    (g : CsvFilter) (hg : CsvFilter.init content = .ok g) :
    ∃ f1 rec f2,
      applySets g calls = .ok f1 ∧
      write_row f1 = .ok (rec, f2) ∧
      rec = g.csv_field_names.map (fun h =>
        csvQuote (match assocGet f1.current_row h with
          | some v => pyStrOf v
          | none => "")) ∧
      rec.length = g.csv_columns.length ∧
      (∀ fld ∈ rec, ∃ s, fld = csvQuote s) ∧
      (∀ fld ∈ rec, fld = csvQuote "" ∨
        ∃ p ∈ calls, truthy p.2 = true ∧ p.1 ∈ g.csv_columns ∧
          fld = csvQuote (pyStrOf p.2)) ∧
      f2.current_row = [] ∧
      write_row f2 = .ok (g.csv_field_names.map (fun _ => csvQuote ""), f2) := by
  obtain ⟨hcols, hheads, hbf, hrow0⟩ := init_spec content g hg
  have hcov : ∀ c ∈ g.csv_columns, ∃ h, assocGet g.csv_headers c = some h := by
    rw [hcols, hheads]
    exact load_properties_covered content
  obtain ⟨f1, ha, hb1, hb2, hb3, hprov⟩ := applySets_ok g calls hcov
  have hkeys : ∀ k w, (k, w) ∈ f1.current_row → k ∈ f1.csv_field_names := by
    intro k w hm
    rcases hprov k w hm with hm2 | ⟨p, hp, hp1, hp2, hp3, hp4⟩
    · rw [hrow0] at hm2
      cases hm2
    · rw [hb3]
      exact buildFieldNames_mem g.csv_headers g.csv_columns g.csv_field_names hbf
        p.1 hp2 k hp3
  have hwr := write_row_ok f1 hkeys
  refine ⟨f1, _, _, ha, hwr, ?_, ?_, ?_, ?_, rfl, ?_⟩
  · rw [hb3]
  · rw [List.length_map, hb3]
    exact buildFieldNames_length g.csv_headers g.csv_columns g.csv_field_names hbf
  · intro fld hfld
    obtain ⟨h, hmem, hEq⟩ := List.mem_map.1 hfld
    exact ⟨_, hEq.symm⟩
  · intro fld hfld
    obtain ⟨h, hmem, hEq⟩ := List.mem_map.1 hfld
    rcases hA : assocGet f1.current_row h with _ | v
    · rw [hA] at hEq
      exact Or.inl hEq.symm
    · rw [hA] at hEq
      rcases hprov h v (assocGet_mem _ _ _ hA) with hm2 | ⟨p, hp, hp1, hp2, hp3, hp4⟩
      · rw [hrow0] at hm2
        cases hm2
      · refine Or.inr ⟨p, hp, hp1, hp2, ?_⟩
        rw [← hEq, hp4]
  · rw [← hb3]
    exact write_row_ok { f1 with current_row := [] }
      (fun k w hm => (List.not_mem_nil _ hm).elim)

/-- C5 witness: the template activating A and C with calls for A, B and
C produces the record with the quoted values of A and C only. -/
theorem write_row_projection_witness :
    ∃ f1 rec f2,
      applySets ⟨["A", "C"], [("A", "Col A"), ("C", "Col C")], ["Col A", "Col C"], []⟩
        [("A", .pstr "x"), ("B", .pstr "y"), ("C", .pstr "z")] = .ok f1 ∧
      write_row f1 = .ok (rec, f2) ∧
      rec = (["Col A", "Col C"] : List String).map (fun h =>
        csvQuote (match assocGet f1.current_row h with
          | some v => pyStrOf v
          | none => "")) ∧
      rec.length = (["A", "C"] : List String).length ∧
      (∀ fld ∈ rec, ∃ s, fld = csvQuote s) ∧
      (∀ fld ∈ rec, fld = csvQuote "" ∨
        ∃ p ∈ [(("A" : String), PyValue.pstr "x"), ("B", .pstr "y"), ("C", .pstr "z")],
          truthy p.2 = true ∧ p.1 ∈ (["A", "C"] : List String) ∧
          fld = csvQuote (pyStrOf p.2)) ∧
      f2.current_row = [] ∧
      write_row f2 = .ok ((["Col A", "Col C"] : List String).map (fun _ => csvQuote ""), f2) :=
  write_row_projection "A=Col A\nC=Col C"
    [("A", .pstr "x"), ("B", .pstr "y"), ("C", .pstr "z")]
    ⟨["A", "C"], [("A", "Col A"), ("C", "Col C")], ["Col A", "Col C"], []⟩ rfl

/-- The template never changes and the buffer keys always come from the
template, across any interleaving of calls. -/
theorem applyOps_inv (ops : List CsvOp) (f f2 : CsvFilter)
    (h : applyOps f ops = .ok f2)
    (hcov : ∀ c ∈ f.csv_columns, ∃ hh, assocGet f.csv_headers c = some hh)
    (hrow : ∀ k w, (k, w) ∈ f.current_row →
      ∃ c, c ∈ f.csv_columns ∧ assocGet f.csv_headers c = some k) :
    f2.csv_columns = f.csv_columns ∧ f2.csv_headers = f.csv_headers ∧
    (∀ k w, (k, w) ∈ f2.current_row →
      ∃ c, c ∈ f2.csv_columns ∧ assocGet f2.csv_headers c = some k) := by
  induction ops generalizing f with
  | nil =>
    injection h with h2
    subst h2
    exact ⟨rfl, rfl, hrow⟩
  | cons op rest ih =>
    cases op with
    | set n v =>
      rcases hsc : set_column f n v with e | fmid
      · rw [applyOps, hsc] at h
        cases h
      · rw [applyOps, hsc] at h
        have h2 : applyOps fmid rest = .ok f2 := h
        obtain ⟨t1, t2, t3⟩ := set_column_template f fmid n v hsc
        have hrow2 : ∀ k w, (k, w) ∈ fmid.current_row →
            ∃ c, c ∈ fmid.csv_columns ∧ assocGet fmid.csv_headers c = some k := by
          intro k w hm
          rcases set_column_row f fmid n v hsc k w hm with hm2 | ⟨q1, q2, q3, q4⟩
          · obtain ⟨c, hc1, hc2⟩ := hrow k w hm2
            exact ⟨c, by rw [t1]; exact hc1, by rw [t2]; exact hc2⟩
          · exact ⟨n, by rw [t1]; exact q2, by rw [t2]; exact q3⟩
        obtain ⟨u1, u2, urow⟩ := ih fmid h2 (by rw [t1, t2]; exact hcov) hrow2
        exact ⟨u1.trans t1, u2.trans t2, urow⟩
    | flush =>
      rcases hwr : write_row f with e | p
      · rw [applyOps, hwr] at h
        cases h
      · rw [applyOps, hwr] at h
        have h2 : applyOps p.2 rest = .ok f2 := h
        rw [write_row_shape f p hwr] at h2
        exact ih { f with current_row := [] } h2 hcov
          (fun k w hm => (List.not_mem_nil _ hm).elim)

/-- C6: in every state reachable from construction, `set_column` with a
falsy value or an unconfigured name is a no-op; otherwise it stores
`header_for(name) -> value` in the buffer; and the buffer only ever
holds keys that are headers of configured template columns. -/
theorem set_column_contract (content : String) (ops : List CsvOp) (g f : CsvFilter)
    (name : String) (v : PyValue)
    (hg : CsvFilter.init content = .ok g) (hops : applyOps g ops = .ok f) :
    ((truthy v = false ∨ name ∉ f.csv_columns) → set_column f name v = .ok f) ∧
    (truthy v = true → name ∈ f.csv_columns →
      ∃ h, assocGet f.csv_headers name = some h ∧
        set_column f name v =
          .ok { f with current_row := assocInsert f.current_row h v }) ∧
    (∀ k w, (k, w) ∈ f.current_row →
      ∃ c, c ∈ f.csv_columns ∧ assocGet f.csv_headers c = some k) := by
  obtain ⟨hcols, hheads, hbf, hrow0⟩ := init_spec content g hg
  have hcovg : ∀ c ∈ g.csv_columns, ∃ hh, assocGet g.csv_headers c = some hh := by
    rw [hcols, hheads]
    exact load_properties_covered content
  obtain ⟨u1, u2, urow⟩ := applyOps_inv ops g f hops hcovg
    (fun k w hm => by rw [hrow0] at hm; cases hm)
  have hcovf : ∀ c ∈ f.csv_columns, ∃ hh, assocGet f.csv_headers c = some hh := by
    rw [u1, u2]
    exact hcovg
  refine ⟨?_, ?_, urow⟩
  · intro hcond
    have hnc : ¬ (truthy v = true ∧ name ∈ f.csv_columns) := by
      rintro ⟨h1, h2⟩
      rcases hcond with hc | hc
      · rw [hc] at h1
        exact Bool.false_ne_true h1
      · exact hc h2
    unfold set_column
    rw [if_neg hnc]
  · intro ht hmem
    obtain ⟨hh, hgn⟩ := hcovf name hmem
    refine ⟨hh, hgn, ?_⟩
    unfold set_column
    rw [if_pos ⟨ht, hmem⟩, hgn]

/-- C6 witness: after storing A, setting the unconfigured B with an
empty value is a no-op, A with a value stores under its header, and the
buffer keys all come from the template. -/
theorem set_column_contract_witness :
    ((truthy (.pstr "") = false ∨
        "B" ∉ (⟨["A", "B"], [("A", "Col A"), ("B", "Col B")], ["Col A", "Col B"],
          [("Col A", PyValue.pstr "x")]⟩ : CsvFilter).csv_columns) →
      set_column ⟨["A", "B"], [("A", "Col A"), ("B", "Col B")], ["Col A", "Col B"],
          [("Col A", PyValue.pstr "x")]⟩ "B" (.pstr "") =
        .ok ⟨["A", "B"], [("A", "Col A"), ("B", "Col B")], ["Col A", "Col B"],
          [("Col A", PyValue.pstr "x")]⟩) ∧
    (truthy (PyValue.pstr "") = true →
      "B" ∈ (⟨["A", "B"], [("A", "Col A"), ("B", "Col B")], ["Col A", "Col B"],
          [("Col A", PyValue.pstr "x")]⟩ : CsvFilter).csv_columns →
      ∃ h, assocGet (⟨["A", "B"], [("A", "Col A"), ("B", "Col B")], ["Col A", "Col B"],
          [("Col A", PyValue.pstr "x")]⟩ : CsvFilter).csv_headers "B" = some h ∧
        set_column ⟨["A", "B"], [("A", "Col A"), ("B", "Col B")], ["Col A", "Col B"],
            [("Col A", PyValue.pstr "x")]⟩ "B" (.pstr "") =
          .ok { (⟨["A", "B"], [("A", "Col A"), ("B", "Col B")], ["Col A", "Col B"],
              [("Col A", PyValue.pstr "x")]⟩ : CsvFilter) with
            current_row := assocInsert [("Col A", PyValue.pstr "x")] h (.pstr "") }) ∧
    (∀ k w, (k, w) ∈ (⟨["A", "B"], [("A", "Col A"), ("B", "Col B")], ["Col A", "Col B"],
        [("Col A", PyValue.pstr "x")]⟩ : CsvFilter).current_row →
      ∃ c, c ∈ (⟨["A", "B"], [("A", "Col A"), ("B", "Col B")], ["Col A", "Col B"],
          [("Col A", PyValue.pstr "x")]⟩ : CsvFilter).csv_columns ∧
        assocGet [("A", "Col A"), ("B", "Col B")] c = some k) :=
  set_column_contract "A=Col A\nB=Col B" [.set "A" (.pstr "x")]
    ⟨["A", "B"], [("A", "Col A"), ("B", "Col B")], ["Col A", "Col B"], []⟩
    ⟨["A", "B"], [("A", "Col A"), ("B", "Col B")], ["Col A", "Col B"],
      [("Col A", PyValue.pstr "x")]⟩ "B" (.pstr "") rfl rfl

end GarminExport
